import Mathlib

/-!
Verification development for the Monte Carlo preflop solver
(`solver_service/app.py`).  The Python source is shallowly embedded:
floats are modelled as rationals (with the square root in the
confidence computation modelled over the reals), wall-clock time and
the random shuffles are modelled as explicit oracle parameters, and
Python tuples of ints ordered by tuple comparison are modelled as
`List Nat` with the lexicographic order `tupleLt`.
-/

namespace Preflop

/-- A playing card, as in the source's two-character strings: a rank
symbol and a suit symbol.  Equality is componentwise. -/
structure Card where
  rank : Char
  suit : Char
deriving DecidableEq, Repr

/-- Source: `ALL_RANKS = "23456789TJQKA"`. -/
def ALL_RANKS : List Char := ['2', '3', '4', '5', '6', '7', '8', '9', 'T', 'J', 'Q', 'K', 'A']

/-- Source: `ALL_SUITS = "cdhs"`. -/
def ALL_SUITS : List Char := ['c', 'd', 'h', 's']

/-- Source: `ALL_CARDS = [r + s for r in ALL_RANKS for s in ALL_SUITS]`. -/
def ALL_CARDS : List Card := ALL_RANKS.flatMap fun r => ALL_SUITS.map fun s => ⟨r, s⟩

/-- Source: `RANK_TO_VALUE = {rank: index + 2 for index, rank in enumerate(ALL_RANKS)}`.
On a symbol outside the table Python would raise `KeyError`; the
embedding returns 0 there (never reached on validated cards). -/
def RANK_TO_VALUE (c : Char) : Nat :=
  if c = '2' then 2 else if c = '3' then 3 else if c = '4' then 4 else
  if c = '5' then 5 else if c = '6' then 6 else if c = '7' then 7 else
  if c = '8' then 8 else if c = '9' then 9 else if c = 'T' then 10 else
  if c = 'J' then 11 else if c = 'Q' then 12 else if c = 'K' then 13 else
  if c = 'A' then 14 else 0

/-- Python's `<` on tuples of ints: lexicographic, and a strict prefix
is smaller than the longer tuple. -/
def tupleLt : List Nat → List Nat → Bool
  | [], [] => false
  | [], _ :: _ => true
  | _ :: _, [] => false
  | a :: xs, b :: ys => if a < b then true else if b < a then false else tupleLt xs ys

/-- Python's `<=` on tuples of ints (the negation of `>` via totality). -/
def tupleLe (a b : List Nat) : Bool := !(tupleLt b a)

/-- Ascending stable sort, for Python's `sorted(...)` on ints. -/
def sortAsc (l : List Nat) : List Nat := List.insertionSort (· ≤ ·) l

/-- Descending stable sort, for Python's `sorted(..., reverse=True)` on ints. -/
def sortDesc (l : List Nat) : List Nat := List.insertionSort (fun a b => b ≤ a) l

/-- The sort order of `sorted(counter.items(), key=lambda item: (item[1], item[0]), reverse=True)`:
descending lexicographically by (count, rank). -/
def countKey (a b : Nat × Nat) : Prop := b.2 < a.2 ∨ (b.2 = a.2 ∧ b.1 ≤ a.1)

instance : DecidableRel countKey := fun a b => by
  unfold countKey
  exact inferInstance

/-- Source (`_hand_value`): `Counter(ranks)` followed by
`sorted(rank_counter.items(), key=lambda item: (item[1], item[0]), reverse=True)`.
`Counter` items are in first-occurrence order (`dedup`), each with its
multiplicity; sorting is by (count, rank) descending. -/
def countsSorted (ranks : List Nat) : List (Nat × Nat) :=
  List.insertionSort countKey (ranks.dedup.map fun r => (r, ranks.count r))

/-- Python's `max(...)` over a nonempty list of ints (raises on empty;
the embedding returns 0 there, never reached in `_hand_value`). -/
def listMax (l : List Nat) : Nat := l.foldl max 0

/-- The scan `for i in range(len(unique) - 4): window = unique[i : i + 5]; ...`
in `_straight_high`: return the first 5-window of consecutive values. -/
def straightWindows : List Nat → Option Nat
  | a :: b :: c :: d :: e :: rest =>
    if b = a + 1 ∧ c = a + 2 ∧ d = a + 3 ∧ e = a + 4 then
      some (if e ≠ 1 then e else 5)
    else straightWindows (b :: c :: d :: e :: rest)
  | _ => none

/-- Source: `_straight_high(ranks)`.  `unique = sorted(set(ranks))`; if 14
is present append a 1 (the wheel's low ace) and re-sort; return the high
card of the first window of five consecutive values, or `None`. -/
def straight_high (ranks : List Nat) : Option Nat :=
  let u0 := sortAsc ranks.dedup
  let u1 := if 14 ∈ u0 then u0 ++ [1] else u0
  straightWindows (sortAsc u1)

/-- Source: `_hand_value(cards)` — the 5-card evaluator returning a
Python tuple (here a `List Nat`) ordered by `tupleLt`.  `counts[0]` is
the head of the sorted count list and `counts[1]` its second element;
the `headD` defaults stand where Python would raise `IndexError`
(unreachable: `counts` is nonempty for nonempty input, and `counts[1]`
is only read under a `len(counts) > 1` guard). -/
def hand_value (cards : List Card) : List Nat :=
  let ranks := cards.map fun card => RANK_TO_VALUE card.rank
  let suits := cards.map Card.suit
  let counts := countsSorted ranks
  let top := counts.headD (0, 0)
  let second := counts.tail.headD (0, 0)
  let ordered_ranks := sortDesc ranks
  let is_flush := suits.dedup.length = 1
  let sh := straight_high ranks
  if is_flush ∧ sh.isSome then 8 :: sh.toList
  else if top.2 = 4 then
    [7, top.1, listMax (ranks.filter fun r => r ≠ top.1)]
  else if top.2 = 3 ∧ counts.tail ≠ [] ∧ second.2 ≥ 2 then
    [6, top.1, second.1]
  else if is_flush then 5 :: ordered_ranks
  else if sh.isSome then 4 :: sh.toList
  else if top.2 = 3 then
    3 :: top.1 :: sortDesc (ranks.filter fun r => r ≠ top.1)
  else if top.2 = 2 ∧ counts.tail ≠ [] ∧ second.2 = 2 then
    2 :: (sortDesc [top.1, second.1] ++
      [listMax (ranks.filter fun r => r ≠ top.1 ∧ r ≠ second.1)])
  else if top.2 = 2 then
    1 :: top.1 :: sortDesc (ranks.filter fun r => r ≠ top.1)
  else 0 :: ordered_ranks

/-- The loop body of `_best_hand_value`:
`value = _hand_value(combo); if best is None or value > best: best = value`. -/
def bhvStep (best : Option (List Nat)) (combo : List Card) : Option (List Nat) :=
  let value := hand_value combo
  match best with
  | none => some value
  | some b => if tupleLt b value then some value else some b

/-- Source: `_best_hand_value(cards)` — fold Python's
`for combo in combinations(cards, 5)` keeping the maximum
`_hand_value`, then `return best or (0,)` (so `None`, or a falsy empty
tuple, becomes `(0,)`).  `combinations(cards, 5)` is embedded as
`List.sublistsLen 5 cards` (the same 5-element subsequences; the
enumeration order is irrelevant to the maximum). -/
def best_hand_value (cards : List Card) : List Nat :=
  match (List.sublistsLen 5 cards).foldl bhvStep none with
  | none => [0]
  | some b => if b = [] then [0] else b

/-- The running counts of `_simulate`: `wins` (int), `ties` (float tie
credit, modelled as a rational), `completed` (int). -/
structure Tally where
  wins : Nat
  ties : ℚ
  completed : Nat
deriving DecidableEq, Repr

/-- The tally at the start of `_simulate`: `wins = 0`, `ties = 0`, `completed = 0`. -/
def initTally : Tally := ⟨0, 0, 0⟩

/-- Python's `max(...)` over a list of hand-value tuples (first maximal
element under `tupleLt`).  On the empty list Python raises; the
embedding returns `[]`, never reached with at least one opponent. -/
def maxTuple (l : List (List Nat)) : List Nat :=
  match l with
  | [] => []
  | x :: xs => xs.foldl (fun acc y => if tupleLt acc y then y else acc) x

/-- The body of one trial's tally update in `_simulate`: compare hero's
value to the maximum opponent value, add a win or fractional tie credit
`1 / (tied + 1)`, then increment `completed`.  With no opponents the
source would compare a tuple against `-1` (a `TypeError` in Python 3);
that branch is unreachable with validated `players >= 2` and the
embedding leaves the tally unchanged there. -/
def trialStep (hero_value : List Nat) (opponent_values : List (List Nat)) (t : Tally) : Tally :=
  match opponent_values with
  | [] => t
  | v :: vs =>
    let max_opponent := maxTuple (v :: vs)
    let t1 :=
      if tupleLt max_opponent hero_value then { t with wins := t.wins + 1 }
      else if hero_value = max_opponent then
        let tied := (v :: vs).count hero_value
        { t with ties := t.ties + 1 / ((tied : ℚ) + 1) }
      else t
    { t1 with completed := t1.completed + 1 }

/-- Source: `deck_cards = [card for card in ALL_CARDS if card not in hero_cards]`. -/
def deck_cards (hero_cards : List Card) : List Card :=
  ALL_CARDS.filter fun card => card ∉ hero_cards

/-- The trial loop of `_simulate`.  `rng i` is the oracle giving the
result of `random.shuffle` on the working deck in trial `i`; `timeUp c`
is the oracle giving the result of the checkpoint test
`elapsed_ms >= max_time_ms` evaluated after `c` completed trials (the
source only evaluates it when `c % 100 == 0`).  The first argument pair
is the remaining iteration count and the trial index. -/
def simLoop (hero_cards : List Card) (players : Nat) (rng : Nat → List Card)
    (timeUp : Nat → Bool) : Nat → Nat → Tally → Tally
  | 0, _, t => t
  | n + 1, i, t =>
    let deck := rng i
    let board := deck.take 5
    let hero_value := best_hand_value (hero_cards ++ board)
    let opponent_values := (List.range (players - 1)).map fun j =>
      best_hand_value ((deck.drop (5 + 2 * j)).take 2 ++ board)
    let t1 := trialStep hero_value opponent_values t
    if t1.completed % 100 = 0 ∧ timeUp t1.completed then t1
    else simLoop hero_cards players rng timeUp n (i + 1) t1

/-- Source: `_simulate(hero_cards, players, iterations, max_time_ms)`,
returning the final tally (the win/tie fractions and duration are
derived separately). -/
def simulate (hero_cards : List Card) (players iterations : Nat)
    (rng : Nat → List Card) (timeUp : Nat → Bool) : Tally :=
  simLoop hero_cards players rng timeUp iterations 0 initTally

/-- Source: `total = float(max(completed, 1))` in `_simulate`. -/
def totalOf (t : Tally) : ℚ := max (t.completed : ℚ) 1

/-- Source: `result["win"] = wins / total` in `_simulate`. -/
def winP (t : Tally) : ℚ := (t.wins : ℚ) / totalOf t

/-- Source: `result["tie"] = ties / total` in `_simulate`. -/
def tieP (t : Tally) : ℚ := t.ties / totalOf t

/-- Source: `loss_prob = max(0.0, 1.0 - win_prob - tie_prob)` in `evaluate`. -/
def lossP (t : Tally) : ℚ := max 0 (1 - winP t - tieP t)

/-- Source: `_iterations_for_budget(max_time_ms, players)`.
`int(base / max(players, 2))` is float division followed by truncation
toward zero, which on these positive operands equals integer floor
division. -/
def iterations_for_budget (max_time_ms players : Nat) : Nat :=
  let base := max_time_ms * 60
  let scaled := base / max players 2
  max 3000 (min 50000 scaled)

/-- Source: `_estimate_ev(win_prob, loss_prob, players)` with `pot = players`. -/
def estimate_ev (win_prob loss_prob : ℚ) (players : Nat) : ℚ :=
  win_prob * (players : ℚ) - loss_prob

/-- Source: `_recommendation(win_prob)`. -/
def recommendation (win_prob : ℚ) : String :=
  if win_prob ≥ 0.7 then "raise"
  else if win_prob ≥ 0.5 then "call"
  else "fold"

/-- Python's built-in bankers rounding to an integer: round half to
even (`round(2.5) == 2`, `round(3.5) == 4`). -/
def roundHalfEvenQ (x : ℚ) : ℤ :=
  let f := ⌊x⌋
  let frac := x - f
  if frac < 1 / 2 then f
  else if 1 / 2 < frac then f + 1
  else if f % 2 = 0 then f else f + 1

/-- Python's `round(x, ndigits)` under exact rational semantics. -/
def roundQ (ndigits : Nat) (x : ℚ) : ℚ :=
  (roundHalfEvenQ (x * 10 ^ ndigits) : ℚ) / 10 ^ ndigits

/-- Bankers rounding over the reals (for the confidence value, whose
computation involves a square root). -/
noncomputable def roundHalfEvenR (x : ℝ) : ℤ :=
  let f := ⌊x⌋
  let frac := x - f
  if frac < 1 / 2 then f
  else if 1 / 2 < frac then f + 1
  else if f % 2 = 0 then f else f + 1

/-- Python's `round(x, ndigits)` over the reals. -/
noncomputable def roundR (ndigits : Nat) (x : ℝ) : ℝ :=
  (roundHalfEvenR (x * 10 ^ ndigits) : ℝ) / 10 ^ ndigits

/-- Source: `_confidence(win_prob, iterations, duration_ms, max_time_ms)`.
The square root forces a real-valued model; the duration comparison is
between the (rational-modelled) float inputs. -/
noncomputable def confidence (win_prob : ℚ) (iterations : Nat)
    (duration_ms max_time_ms : ℚ) : ℝ :=
  let variance : ℝ := (win_prob : ℝ) * (1 - (win_prob : ℝ))
  let std_error := Real.sqrt (variance / (max iterations 1 : ℕ))
  let c := 1 - std_error * 3
  let c2 := max 0.5 (min 0.99 c)
  if duration_ms ≥ (0.9 : ℚ) * max_time_ms then min 0.99 (c2 + 0.02) else c2

/-- The fields of the source's `SolverResponse`. -/
structure SolverResponse where
  win_prob : ℚ
  tie_prob : ℚ
  loss_prob : ℚ
  ev_bb : ℚ
  recommendation : String
  confidence : ℝ
  iterations : Nat
  solver_version : String

/-- The response assembly at the end of `evaluate`: probabilities
rounded to 4 decimal places, EV and confidence to 3, iterations
returned as-is. -/
noncomputable def solverResponse (t : Tally) (players : Nat)
    (duration_ms max_time_ms : ℚ) : SolverResponse :=
  let win_prob := winP t
  let tie_prob := tieP t
  let loss_prob := lossP t
  { win_prob := roundQ 4 win_prob
    tie_prob := roundQ 4 tie_prob
    loss_prob := roundQ 4 loss_prob
    ev_bb := roundQ 3 (estimate_ev win_prob loss_prob players)
    recommendation := recommendation win_prob
    confidence := roundR 3 (confidence win_prob t.completed duration_ms max_time_ms)
    iterations := t.completed
    solver_version := "solver-mc-0.1" }

/-- The loop of `_build_hero_hand` building each `f"{rank.upper()}{suit.lower()}"`
card and raising on one outside `ALL_CARDS`. -/
def buildCards : List (Char × Char) → Except String (List Card)
  | [] => Except.ok []
  | (r, s) :: rest =>
    let card : Card := ⟨r.toUpper, s.toLower⟩
    if card ∈ ALL_CARDS then (buildCards rest).map fun cs => card :: cs
    else Except.error "unsupported card"

/-- Source: `_build_hero_hand(ranks, suits)`: build the two normalized
cards, then reject `cards[0] == cards[1]`.  With fewer than two cards
Python would raise `IndexError`; the request schema guarantees exactly
two. -/
def build_hero_hand (ranks suits : List Char) : Except String (List Card) :=
  match buildCards (ranks.zip suits) with
  | Except.error e => Except.error e
  | Except.ok cards =>
    match cards with
    | c0 :: c1 :: _ =>
      if c0 = c1 then Except.error "duplicate cards are not allowed"
      else Except.ok cards
    | _ => Except.error "index error"

/-- Source: the `evaluate` endpoint body — validate and build the hero
hand (errors surface before any simulation), derive the iteration cap,
run the simulation, assemble the response.  `duration_ms` stands for
the measured `int((time.perf_counter() - start) * 1000)`. -/
noncomputable def evaluate (ranks suits : List Char) (players max_time_ms : Nat)
    (rng : Nat → List Card) (timeUp : Nat → Bool) (duration_ms : ℚ) :
    Except String SolverResponse :=
  match build_hero_hand ranks suits with
  | Except.error e => Except.error e
  | Except.ok hero_cards =>
    let iterations := iterations_for_budget max_time_ms players
    let t := simulate hero_cards players iterations rng timeUp
    Except.ok (solverResponse t players duration_ms (max_time_ms : ℚ))

/-! Basic properties of the tuple order. -/

lemma tupleLt_cons (x y : Nat) (xs ys : List Nat) :
    tupleLt (x :: xs) (y :: ys) = true ↔ x < y ∨ (x = y ∧ tupleLt xs ys = true) := by
  simp only [tupleLt]
  split_ifs with h1 h2
  · simp [h1]
  · simp only [Bool.false_eq_true, false_iff]
    rintro (h | ⟨h, _⟩) <;> omega
  · have hxy : x = y := by omega
    simp [hxy]

lemma tupleLt_irrefl (a : List Nat) : tupleLt a a = false := by
  induction a with
  | nil => rfl
  | cons x xs ih =>
    rw [← Bool.not_eq_true, tupleLt_cons]
    rintro (h | ⟨_, h⟩)
    · omega
    · rw [ih] at h; cases h

lemma tupleLt_trans : ∀ a b c : List Nat,
    tupleLt a b = true → tupleLt b c = true → tupleLt a c = true
  | _, [], [] => by intro hab hbc; cases hbc
  | [], _ :: _, [] => by intro _ hbc; cases hbc
  | _ :: _, _ :: _, [] => by intro _ hbc; cases hbc
  | [], [], _ :: _ => by intro hab _; cases hab
  | _ :: _, [], _ :: _ => by intro hab _; cases hab
  | [], _ :: _, _ :: _ => by intro _ _; rfl
  | x :: xs, y :: ys, z :: zs => by
    intro hab hbc
    rw [tupleLt_cons] at hab hbc ⊢
    rcases hab with h1 | ⟨h1, h1'⟩ <;> rcases hbc with h2 | ⟨h2, h2'⟩
    · exact Or.inl (by omega)
    · exact Or.inl (by omega)
    · exact Or.inl (by omega)
    · exact Or.inr ⟨by omega, tupleLt_trans xs ys zs h1' h2'⟩

lemma tupleLt_total : ∀ a b : List Nat,
    tupleLt a b = true ∨ a = b ∨ tupleLt b a = true
  | [], [] => Or.inr (Or.inl rfl)
  | [], _ :: _ => Or.inl rfl
  | _ :: _, [] => Or.inr (Or.inr rfl)
  | x :: xs, y :: ys => by
    rcases Nat.lt_trichotomy x y with h | h | h
    · exact Or.inl ((tupleLt_cons x y xs ys).mpr (Or.inl h))
    · rcases tupleLt_total xs ys with h' | h' | h'
      · exact Or.inl ((tupleLt_cons x y xs ys).mpr (Or.inr ⟨h, h'⟩))
      · exact Or.inr (Or.inl (by rw [h, h']))
      · exact Or.inr (Or.inr ((tupleLt_cons y x ys xs).mpr (Or.inr ⟨h.symm, h'⟩)))
    · exact Or.inr (Or.inr ((tupleLt_cons y x ys xs).mpr (Or.inl h)))

lemma tupleLt_asymm {a b : List Nat} (h : tupleLt a b = true) : tupleLt b a = false := by
  by_contra h'
  have h'' : tupleLt b a = true := by
    cases hba : tupleLt b a
    · exact absurd hba h'
    · rfl
  have := tupleLt_trans a b a h h''
  rw [tupleLt_irrefl] at this
  cases this

lemma tupleLt_ne {a b : List Nat} (h : tupleLt a b = true) : a ≠ b := by
  rintro rfl
  rw [tupleLt_irrefl] at h
  cases h

lemma tupleLe_iff (a b : List Nat) : tupleLe a b = true ↔ tupleLt b a = false := by
  simp [tupleLe]

lemma tupleLe_refl (a : List Nat) : tupleLe a a = true :=
  (tupleLe_iff a a).mpr (tupleLt_irrefl a)

lemma tupleLe_trans {a b c : List Nat} (hab : tupleLe a b = true)
    (hbc : tupleLe b c = true) : tupleLe a c = true := by
  rw [tupleLe_iff] at hab hbc ⊢
  cases hca : tupleLt c a with
  | false => rfl
  | true =>
    rcases tupleLt_total a b with h | h | h
    · rw [tupleLt_trans c a b hca h] at hbc; cases hbc
    · subst h; rw [hca] at hbc; cases hbc
    · rw [h] at hab; cases hab

/-! Properties of `maxTuple` (Python's `max` over hand values). -/

lemma foldlMax_mem (xs : List (List Nat)) :
    ∀ a, xs.foldl (fun acc y => if tupleLt acc y then y else acc) a ∈ a :: xs := by
  induction xs with
  | nil => intro a; simp
  | cons x xs ih =>
    intro a
    rw [List.foldl_cons]
    by_cases h : tupleLt a x = true
    · rw [if_pos h]
      exact List.mem_cons_of_mem a (ih x)
    · rw [if_neg h]
      rcases List.mem_cons.mp (ih a) with h' | h'
      · rw [h']
        exact List.mem_cons_self a (x :: xs)
      · exact List.mem_cons_of_mem a (List.mem_cons_of_mem x h')

lemma foldlMax_ge (xs : List (List Nat)) :
    ∀ a y, y ∈ a :: xs →
      tupleLe y (xs.foldl (fun acc y => if tupleLt acc y then y else acc) a) = true := by
  induction xs with
  | nil =>
    intro a y hy
    rw [List.mem_singleton] at hy
    subst hy
    exact tupleLe_refl y
  | cons x xs ih =>
    intro a y hy
    rw [List.foldl_cons]
    have step_ge_a : tupleLe a (if tupleLt a x = true then x else a) = true := by
      by_cases h : tupleLt a x = true
      · rw [if_pos h, tupleLe_iff]; exact tupleLt_asymm h
      · rw [if_neg h]; exact tupleLe_refl a
    have step_ge_x : tupleLe x (if tupleLt a x = true then x else a) = true := by
      by_cases h : tupleLt a x = true
      · rw [if_pos h]; exact tupleLe_refl x
      · rw [if_neg h, tupleLe_iff]
        cases hax : tupleLt a x
        · rfl
        · exact absurd hax h
    rcases List.mem_cons.mp hy with rfl | hy'
    · exact tupleLe_trans step_ge_a
        (ih _ _ (List.mem_cons_self _ xs))
    · rcases List.mem_cons.mp hy' with rfl | hy''
      · exact tupleLe_trans step_ge_x (ih _ _ (List.mem_cons_self _ xs))
      · exact ih _ y (List.mem_cons.mpr (Or.inr hy''))

lemma maxTuple_mem {l : List (List Nat)} (h : l ≠ []) : maxTuple l ∈ l := by
  cases l with
  | nil => exact absurd rfl h
  | cons x xs => exact foldlMax_mem xs x

lemma maxTuple_ge {l : List (List Nat)} (h : l ≠ []) :
    ∀ y ∈ l, tupleLe y (maxTuple l) = true := by
  cases l with
  | nil => exact absurd rfl h
  | cons x xs => exact fun y hy => foldlMax_ge xs x y hy

/-! Claim C1: the per-trial tally update. -/

/-- C1: in each trial, with at least one opponent, the tally update of
`_simulate` is: hero's value strictly above the maximum opponent value
adds exactly 1 win and leaves the tie credit unchanged; hero's value
equal to the maximum adds exactly `1 / (1 + k)` tie credit where `k` is
the number of opponents holding that maximum value, leaving wins
unchanged; otherwise wins and tie credit are unchanged; and in all
three cases the completed-trial count grows by exactly 1.  The first
conjunct certifies that `maxTuple` really is the maximum opponent
value. -/
theorem trial_tally_update (hero_value : List Nat)
    (opponent_values : List (List Nat)) (t : Tally)
    (hne : opponent_values ≠ []) :
    (maxTuple opponent_values ∈ opponent_values ∧
      ∀ x ∈ opponent_values, tupleLe x (maxTuple opponent_values) = true) ∧
    (tupleLt (maxTuple opponent_values) hero_value = true →
      trialStep hero_value opponent_values t =
        ⟨t.wins + 1, t.ties, t.completed + 1⟩) ∧
    (hero_value = maxTuple opponent_values →
      trialStep hero_value opponent_values t =
        ⟨t.wins,
         t.ties + 1 / ((opponent_values.count (maxTuple opponent_values) : ℚ) + 1),
         t.completed + 1⟩) ∧
    (tupleLt hero_value (maxTuple opponent_values) = true →
      trialStep hero_value opponent_values t =
        ⟨t.wins, t.ties, t.completed + 1⟩) := by
  cases opponent_values with
  | nil => exact absurd rfl hne
  | cons v vs =>
    refine ⟨⟨maxTuple_mem (by simp), maxTuple_ge (by simp)⟩, ?_, ?_, ?_⟩
    · intro hwin
      rw [trialStep, if_pos hwin]
    · intro htie
      rw [trialStep, if_neg, if_pos htie, ← htie]
      rw [htie, tupleLt_irrefl]
      exact Bool.false_ne_true
    · intro hloss
      rw [trialStep, if_neg, if_neg]
      · exact fun h => tupleLt_ne hloss h
      · rw [tupleLt_asymm hloss]
        exact Bool.false_ne_true

/-- Witness for C1 at a concrete trial: hero `(1,)` beats the single
opponent `(0,)`, adding one win and one completed trial. -/
theorem trial_tally_update_witness :
    trialStep [1] [[0]] ⟨0, 0, 0⟩ = ⟨1, 0, 1⟩ :=
  (trial_tally_update [1] [[0]] ⟨0, 0, 0⟩ (by simp)).2.1 (by decide)

/-! The tally invariant used for claims C3 and C9: each trial adds at
most 1 to `wins + ties` and the tie credit stays nonnegative. -/

lemma trialStep_invariant (hero_value : List Nat)
    (opponent_values : List (List Nat)) (t : Tally)
    (h1 : (t.wins : ℚ) + t.ties ≤ (t.completed : ℚ)) (h2 : 0 ≤ t.ties) :
    ((trialStep hero_value opponent_values t).wins : ℚ) +
        (trialStep hero_value opponent_values t).ties ≤
      ((trialStep hero_value opponent_values t).completed : ℚ) ∧
    0 ≤ (trialStep hero_value opponent_values t).ties := by
  cases opponent_values with
  | nil => exact ⟨h1, h2⟩
  | cons v vs =>
    rw [trialStep]
    split_ifs with hwin htie
    · constructor
      · push_cast; linarith
      · exact h2
    · have hk : (0 : ℚ) < ((v :: vs).count hero_value : ℚ) + 1 := by positivity
      have hle : 1 / (((v :: vs).count hero_value : ℚ) + 1) ≤ 1 := by
        rw [div_le_one hk]
        have : (0 : ℚ) ≤ ((v :: vs).count hero_value : ℚ) := by positivity
        linarith
      have hge : (0 : ℚ) ≤ 1 / (((v :: vs).count hero_value : ℚ) + 1) := by positivity
      constructor
      · push_cast; linarith
      · simp only []
        linarith
    · constructor
      · push_cast; linarith
      · exact h2

lemma simLoop_invariant (hero_cards : List Card) (players : Nat)
    (rng : Nat → List Card) (timeUp : Nat → Bool) :
    ∀ (n i : Nat) (t : Tally),
      (t.wins : ℚ) + t.ties ≤ (t.completed : ℚ) → 0 ≤ t.ties →
      ((simLoop hero_cards players rng timeUp n i t).wins : ℚ) +
          (simLoop hero_cards players rng timeUp n i t).ties ≤
        ((simLoop hero_cards players rng timeUp n i t).completed : ℚ) ∧
      0 ≤ (simLoop hero_cards players rng timeUp n i t).ties := by
  intro n
  induction n with
  | zero => intro i t h1 h2; exact ⟨h1, h2⟩
  | succ n ih =>
    intro i t h1 h2
    rw [simLoop]
    have hstep := trialStep_invariant
      (best_hand_value (hero_cards ++ (rng i).take 5))
      ((List.range (players - 1)).map fun j =>
        best_hand_value (((rng i).drop (5 + 2 * j)).take 2 ++ (rng i).take 5))
      t h1 h2
    split_ifs with hstop
    · exact hstep
    · exact ih (i + 1) _ hstep.1 hstep.2

lemma simulate_invariant (hero_cards : List Card) (players iterations : Nat)
    (rng : Nat → List Card) (timeUp : Nat → Bool) :
    ((simulate hero_cards players iterations rng timeUp).wins : ℚ) +
        (simulate hero_cards players iterations rng timeUp).ties ≤
      ((simulate hero_cards players iterations rng timeUp).completed : ℚ) ∧
    0 ≤ (simulate hero_cards players iterations rng timeUp).ties :=
  simLoop_invariant hero_cards players rng timeUp iterations 0 initTally
    (by simp [initTally]) (by simp [initTally])

/-! Loop termination structure, for claims C6 and C8. -/

lemma trialStep_completed (hero_value : List Nat)
    (opponent_values : List (List Nat)) (t : Tally)
    (h : opponent_values ≠ []) :
    (trialStep hero_value opponent_values t).completed = t.completed + 1 := by
  cases opponent_values with
  | nil => exact absurd rfl h
  | cons v vs =>
    rw [trialStep]
    split_ifs <;> rfl

lemma simLoop_spec (hero_cards : List Card) (players : Nat)
    (rng : Nat → List Card) (timeUp : Nat → Bool) (hp : 2 ≤ players) :
    ∀ (n i : Nat) (t : Tally),
      (simLoop hero_cards players rng timeUp n i t).completed ≤ t.completed + n ∧
      ((simLoop hero_cards players rng timeUp n i t).completed = t.completed + n ∨
        (t.completed < (simLoop hero_cards players rng timeUp n i t).completed ∧
          (simLoop hero_cards players rng timeUp n i t).completed % 100 = 0 ∧
          timeUp (simLoop hero_cards players rng timeUp n i t).completed = true)) ∧
      ∀ m, t.completed < m →
        m < (simLoop hero_cards players rng timeUp n i t).completed →
        m % 100 = 0 → timeUp m = false := by
  intro n
  induction n with
  | zero =>
    intro i t
    refine ⟨Nat.le_refl _, Or.inl rfl, fun m hm hm' _ => ?_⟩
    rw [simLoop] at hm'
    omega
  | succ n ih =>
    intro i t
    rw [simLoop]
    have hopp : ((List.range (players - 1)).map fun j =>
        best_hand_value (((rng i).drop (5 + 2 * j)).take 2 ++ (rng i).take 5)) ≠ [] := by
      have : players - 1 ≠ 0 := by omega
      simp [List.range_eq_nil, this]
    have hcomp := trialStep_completed
      (best_hand_value (hero_cards ++ (rng i).take 5)) _ t hopp
    split_ifs with hstop
    · rw [hcomp] at hstop ⊢
      exact ⟨by omega, Or.inr ⟨by omega, hstop.1, hstop.2⟩, fun m hm hm' _ => by omega⟩
    · obtain ⟨ih1, ih2, ih3⟩ := ih (i + 1) (trialStep (best_hand_value (hero_cards ++ (rng i).take 5))
        ((List.range (players - 1)).map fun j =>
          best_hand_value (((rng i).drop (5 + 2 * j)).take 2 ++ (rng i).take 5)) t)
      rw [hcomp] at ih1 ih2 ih3
      refine ⟨by omega, ?_, ?_⟩
      · rcases ih2 with h | ⟨h1, h2, h3⟩
        · exact Or.inl (by omega)
        · exact Or.inr ⟨by omega, h2, h3⟩
      · intro m hm hm' hmod
        rcases Nat.lt_or_ge (t.completed + 1) m with hgt | hge
        · exact ih3 m hgt hm' hmod
        · have hmeq : m = t.completed + 1 := by omega
          rw [hcomp] at hstop
          rw [hmeq] at hmod ⊢
          cases htu : timeUp (t.completed + 1)
          · rfl
          · exact absurd ⟨hmod, htu⟩ hstop

/-- C6: the trial loop runs to the iteration cap unless a checkpoint —
which exists only at multiples of 100 completed trials — observes that
the time budget is exhausted; no time test happens between checkpoints,
so a budget-triggered stop leaves a completed count that is a positive
multiple of 100, and every earlier checkpoint observed the budget as
not yet exhausted.  `timeUp c` is the oracle for the checkpoint test
`elapsed_ms >= max_time_ms` after `c` completed trials. -/
theorem loop_termination (hero_cards : List Card) (players iterations : Nat)
    (rng : Nat → List Card) (timeUp : Nat → Bool) (hp : 2 ≤ players) :
    (simulate hero_cards players iterations rng timeUp).completed ≤ iterations ∧
    ((simulate hero_cards players iterations rng timeUp).completed = iterations ∨
      (0 < (simulate hero_cards players iterations rng timeUp).completed ∧
        (simulate hero_cards players iterations rng timeUp).completed % 100 = 0 ∧
        timeUp (simulate hero_cards players iterations rng timeUp).completed = true)) ∧
    ∀ m, 0 < m → m < (simulate hero_cards players iterations rng timeUp).completed →
      m % 100 = 0 → timeUp m = false := by
  have h := simLoop_spec hero_cards players rng timeUp hp iterations 0 initTally
  simpa [simulate, initTally] using h

/-- Witness for C6: with a zero iteration cap the loop completes
exactly zero trials. -/
theorem loop_termination_witness :
    2 ≤ 2 ∧
    ((simulate [] 2 0 (fun _ => []) (fun _ => false)).completed ≤ 0 ∧
      ((simulate [] 2 0 (fun _ => []) (fun _ => false)).completed = 0 ∨
        (0 < (simulate [] 2 0 (fun _ => []) (fun _ => false)).completed ∧
          (simulate [] 2 0 (fun _ => []) (fun _ => false)).completed % 100 = 0 ∧
          (fun _ => false) (simulate [] 2 0 (fun _ => []) (fun _ => false)).completed = true)) ∧
      ∀ m, 0 < m → m < (simulate [] 2 0 (fun _ => []) (fun _ => false)).completed →
        m % 100 = 0 → (fun _ => false) m = false) :=
  ⟨by omega, loop_termination [] 2 0 (fun _ => []) (fun _ => false) (by omega)⟩

/-! Determinism of the simulator in the injected randomness, claim C7. -/

lemma simLoop_rng_congr (hero_cards : List Card) (players : Nat)
    (rng₁ rng₂ : Nat → List Card) (timeUp : Nat → Bool) :
    ∀ (n i : Nat) (t : Tally), (∀ k, i ≤ k → k < i + n → rng₁ k = rng₂ k) →
      simLoop hero_cards players rng₁ timeUp n i t =
        simLoop hero_cards players rng₂ timeUp n i t := by
  intro n
  induction n with
  | zero => intro i t _; rw [simLoop, simLoop]
  | succ n ih =>
    intro i t h
    rw [simLoop, simLoop]
    rw [h i (Nat.le_refl i) (by omega)]
    split_ifs with hstop
    · rfl
    · exact ih (i + 1) _ fun k hk hk' => h k (by omega) (by omega)

/-- C7: the random source of the simulator is an explicit, replaceable
parameter (the oracle `rng`, giving the shuffle outcome of each trial),
and the resulting tally is a function of the inputs and the injected
random values alone: two runs whose random sources agree on the trials
in range produce identical `(wins, ties, completed)`.  In particular
two runs with the same injected seed (hence the same shuffle sequence)
and identical inputs coincide. -/
theorem simulator_determinism (hero_cards : List Card) (players iterations : Nat)
    (rng₁ rng₂ : Nat → List Card) (timeUp : Nat → Bool)
    (h : ∀ k, k < iterations → rng₁ k = rng₂ k) :
    simulate hero_cards players iterations rng₁ timeUp =
      simulate hero_cards players iterations rng₂ timeUp :=
  simLoop_rng_congr hero_cards players rng₁ rng₂ timeUp iterations 0 initTally
    fun k _ hk => h k (by omega)

/-- Witness for C7: two syntactically different random sources that
agree on the single consumed trial give identical simulations. -/
theorem simulator_determinism_witness :
    simulate [] 2 1 (fun _ => []) (fun _ => false) =
      simulate [] 2 1 (fun k => if k = 0 then [] else [⟨'A', 's'⟩]) (fun _ => false) :=
  simulator_determinism [] 2 1 (fun _ => [])
    (fun k => if k = 0 then [] else [⟨'A', 's'⟩]) (fun _ => false)
    (fun k hk => by
      have hk0 : k = 0 := by omega
      subst hk0
      rfl)

/-! Claim C8: the iteration cap is clamped and the completed count is
at least 100. -/

/-- C8: for every valid player count and time budget the derived trial
cap lies in `[3000, 50000]`, and — because the loop can stop early only
at checkpoints after multiples of 100 completed trials — every run with
that cap completes at least 100 trials. -/
theorem iteration_cap_clamped (players max_time_ms : Nat)
    (hp2 : 2 ≤ players) (hp10 : players ≤ 10)
    (ht1 : 100 ≤ max_time_ms) (ht2 : max_time_ms ≤ 5000) :
    3000 ≤ iterations_for_budget max_time_ms players ∧
    iterations_for_budget max_time_ms players ≤ 50000 ∧
    ∀ (hero_cards : List Card) (rng : Nat → List Card) (timeUp : Nat → Bool),
      100 ≤ (simulate hero_cards players
        (iterations_for_budget max_time_ms players) rng timeUp).completed := by
  have hlow : 3000 ≤ iterations_for_budget max_time_ms players := by
    simp only [iterations_for_budget]
    omega
  refine ⟨hlow, by simp only [iterations_for_budget]; omega, ?_⟩
  intro hero_cards rng timeUp
  have h := simLoop_spec hero_cards players rng timeUp hp2
    (iterations_for_budget max_time_ms players) 0 initTally
  obtain ⟨h1, h2, _⟩ := h
  have h0 : initTally.completed = 0 := rfl
  rw [h0] at h1 h2
  simp only [simulate]
  rcases h2 with h2 | ⟨h2a, h2b, _⟩
  · omega
  · omega

/-- Witness for C8 at the smallest budget and player count, with a
time oracle that exhausts the budget at the very first checkpoint. -/
theorem iteration_cap_clamped_witness :
    2 ≤ 2 ∧ (2 : Nat) ≤ 10 ∧ 100 ≤ 100 ∧ (100 : Nat) ≤ 5000 ∧
    3000 ≤ iterations_for_budget 100 2 ∧
    iterations_for_budget 100 2 ≤ 50000 ∧
    100 ≤ (simulate [] 2 (iterations_for_budget 100 2)
      (fun _ => []) (fun _ => true)).completed := by
  have h := iteration_cap_clamped 2 100 (by omega) (by omega) (by omega) (by omega)
  exact ⟨by omega, by omega, by omega, by omega, h.1, h.2.1,
    h.2.2 [] (fun _ => []) (fun _ => true)⟩

/-! Claim C3: the derived probabilities. -/

lemma totalOf_eq {t : Tally} (hc : 1 ≤ t.completed) :
    totalOf t = (t.completed : ℚ) := by
  rw [totalOf, max_eq_left]
  exact_mod_cast hc

lemma probs_sum_one (t : Tally)
    (hinv : (t.wins : ℚ) + t.ties ≤ (t.completed : ℚ))
    (hc : 1 ≤ t.completed) :
    winP t + tieP t + lossP t = 1 := by
  have htot := totalOf_eq hc
  have hpos : (0 : ℚ) < (t.completed : ℚ) := by
    have : 0 < t.completed := hc
    exact_mod_cast this
  have hwt : winP t + tieP t ≤ 1 := by
    rw [winP, tieP, htot, div_add_div_same, div_le_one hpos]
    exact hinv
  have hloss : lossP t = 1 - winP t - tieP t := by
    rw [lossP, max_eq_right]
    linarith
  linarith

/-- C3: any tally the simulator produces with at least one completed
trial yields `winProbability = wins / completedTrials`,
`tieProbability = tieCredit / completedTrials`,
`lossProbability = max(0, 1 - win - tie)`, the three probabilities sum
exactly to 1 (rationals model the ideal float arithmetic), and
`wins + tieCredit` never exceeds `completedTrials`. -/
theorem tally_probabilities (hero_cards : List Card)
    (players iterations : Nat) (rng : Nat → List Card) (timeUp : Nat → Bool)
    (t : Tally) (ht : t = simulate hero_cards players iterations rng timeUp)
    (hc : 1 ≤ t.completed) :
    winP t = (t.wins : ℚ) / (t.completed : ℚ) ∧
    tieP t = t.ties / (t.completed : ℚ) ∧
    lossP t = max 0 (1 - winP t - tieP t) ∧
    winP t + tieP t + lossP t = 1 ∧
    (t.wins : ℚ) + t.ties ≤ (t.completed : ℚ) := by
  have hinv : ((t.wins : ℚ) + t.ties ≤ (t.completed : ℚ)) ∧ 0 ≤ t.ties := by
    rw [ht]
    exact simulate_invariant hero_cards players iterations rng timeUp
  exact ⟨by rw [winP, totalOf_eq hc], by rw [tieP, totalOf_eq hc], rfl,
    probs_sum_one t hinv.1 hc, hinv.1⟩

/-- Witness for C3 on a concrete one-trial run (hero ties the single
opponent there, so the tally is `(0, 1/2, 1)`). -/
theorem tally_probabilities_witness :
    1 ≤ (simulate [] 2 1 (fun _ => []) (fun _ => false)).completed ∧
    winP (simulate [] 2 1 (fun _ => []) (fun _ => false)) +
      tieP (simulate [] 2 1 (fun _ => []) (fun _ => false)) +
      lossP (simulate [] 2 1 (fun _ => []) (fun _ => false)) = 1 :=
  ⟨by decide,
    (tally_probabilities [] 2 1 (fun _ => []) (fun _ => false) _ rfl
      (by decide)).2.2.2.1⟩

/-! Claims C2 and C10: the best-hand search. -/

lemma hand_value_ne_nil (cards : List Card) : hand_value cards ≠ [] := by
  simp only [hand_value]
  split_ifs <;> simp

lemma bhvStep_none (c : List Card) : bhvStep none c = some (hand_value c) := rfl

lemma bhvStep_some (b : List Nat) (c : List Card) :
    bhvStep (some b) c =
      some (if tupleLt b (hand_value c) then hand_value c else b) := by
  simp only [bhvStep]
  split_ifs <;> rfl

lemma foldl_bhvStep (cs : List (List Card)) :
    ∀ b : List Nat,
      cs.foldl bhvStep (some b) =
        some ((cs.map hand_value).foldl
          (fun acc y => if tupleLt acc y then y else acc) b) := by
  induction cs with
  | nil => intro b; rfl
  | cons c cs ih =>
    intro b
    rw [List.foldl_cons, bhvStep_some, List.map_cons, List.foldl_cons]
    by_cases h : tupleLt b (hand_value c) = true
    · rw [if_pos h]
      exact ih (hand_value c)
    · rw [if_neg h]
      exact ih b

lemma best_hand_value_eq_max (cards s0 : List Card) (ss : List (List Card))
    (hsub : List.sublistsLen 5 cards = s0 :: ss) :
    best_hand_value cards =
      (ss.map hand_value).foldl
        (fun acc y => if tupleLt acc y then y else acc) (hand_value s0) := by
  have hM : (ss.map hand_value).foldl
      (fun acc y => if tupleLt acc y then y else acc) (hand_value s0) ≠ [] := by
    rcases List.mem_cons.mp (foldlMax_mem (ss.map hand_value) (hand_value s0))
      with h | h
    · rw [h]; exact hand_value_ne_nil s0
    · obtain ⟨u, _, hu⟩ := List.mem_map.mp h
      rw [← hu]; exact hand_value_ne_nil u
  simp only [best_hand_value, hsub, List.foldl_cons, bhvStep_none]
  rw [foldl_bhvStep]
  exact if_neg hM

/-- C2: on 6 or 7 well-formed cards, `_best_hand_value` returns the
maximum over all 5-card subsets (6 of them for 6 cards, 21 for 7) of
the 5-card rank value, under the tuple (HandRank) ordering: the result
equals the value of some 5-card subset and dominates the value of
every 5-card subset. -/
theorem best_hand_value_max_over_subsets (cards : List Card)
    (h : cards.length = 6 ∨ cards.length = 7) :
    ((cards.length = 6 → (List.sublistsLen 5 cards).length = 6) ∧
      (cards.length = 7 → (List.sublistsLen 5 cards).length = 21)) ∧
    ∃ s ∈ List.sublistsLen 5 cards,
      best_hand_value cards = hand_value s ∧
      ∀ u ∈ List.sublistsLen 5 cards,
        tupleLe (hand_value u) (best_hand_value cards) = true := by
  have hlen : (List.sublistsLen 5 cards).length = Nat.choose cards.length 5 :=
    List.length_sublistsLen 5 cards
  have hchoose6 : Nat.choose 6 5 = 6 := by decide
  have hchoose7 : Nat.choose 7 5 = 21 := by decide
  have hcounts : (cards.length = 6 → (List.sublistsLen 5 cards).length = 6) ∧
      (cards.length = 7 → (List.sublistsLen 5 cards).length = 21) :=
    ⟨fun h' => by rw [hlen, h', hchoose6],
     fun h' => by rw [hlen, h', hchoose7]⟩
  have hne : List.sublistsLen 5 cards ≠ [] := by
    apply List.length_pos.mp
    rcases h with h' | h' <;> rw [hlen, h'] <;> omega
  obtain ⟨s0, ss, hsub⟩ : ∃ s0 ss, List.sublistsLen 5 cards = s0 :: ss := by
    cases hs : List.sublistsLen 5 cards with
    | nil => exact absurd hs hne
    | cons a l => exact ⟨a, l, rfl⟩
  have hbhv := best_hand_value_eq_max cards s0 ss hsub
  have hmem' : best_hand_value cards ∈ (s0 :: ss).map hand_value := by
    rw [hbhv, List.map_cons]
    exact foldlMax_mem (ss.map hand_value) (hand_value s0)
  obtain ⟨s, hs_mem, hs_eq⟩ := List.mem_map.mp hmem'
  refine ⟨hcounts, s, by rw [hsub]; exact hs_mem, hs_eq.symm, ?_⟩
  intro u hu
  rw [hbhv]
  apply foldlMax_ge (ss.map hand_value) (hand_value s0)
  rw [← List.map_cons]
  apply List.mem_map_of_mem
  rw [hsub] at hu
  exact hu

/-- Witness for C2 on a concrete 6-card input. -/
theorem best_hand_value_max_over_subsets_witness :
    (([⟨'A', 's'⟩, ⟨'K', 's'⟩, ⟨'Q', 'h'⟩, ⟨'J', 'd'⟩, ⟨'T', 'c'⟩, ⟨'2', 'c'⟩] :
        List Card).length = 6 ∨
      ([⟨'A', 's'⟩, ⟨'K', 's'⟩, ⟨'Q', 'h'⟩, ⟨'J', 'd'⟩, ⟨'T', 'c'⟩, ⟨'2', 'c'⟩] :
        List Card).length = 7) ∧
    ∃ s ∈ List.sublistsLen 5
        [⟨'A', 's'⟩, ⟨'K', 's'⟩, ⟨'Q', 'h'⟩, ⟨'J', 'd'⟩, ⟨'T', 'c'⟩, ⟨'2', 'c'⟩],
      best_hand_value
          [⟨'A', 's'⟩, ⟨'K', 's'⟩, ⟨'Q', 'h'⟩, ⟨'J', 'd'⟩, ⟨'T', 'c'⟩, ⟨'2', 'c'⟩] =
        hand_value s ∧
      ∀ u ∈ List.sublistsLen 5
          [⟨'A', 's'⟩, ⟨'K', 's'⟩, ⟨'Q', 'h'⟩, ⟨'J', 'd'⟩, ⟨'T', 'c'⟩, ⟨'2', 'c'⟩],
        tupleLe (hand_value u)
          (best_hand_value
            [⟨'A', 's'⟩, ⟨'K', 's'⟩, ⟨'Q', 'h'⟩, ⟨'J', 'd'⟩, ⟨'T', 'c'⟩, ⟨'2', 'c'⟩]) =
          true :=
  ⟨Or.inl rfl,
    (best_hand_value_max_over_subsets
      [⟨'A', 's'⟩, ⟨'K', 's'⟩, ⟨'Q', 'h'⟩, ⟨'J', 'd'⟩, ⟨'T', 'c'⟩, ⟨'2', 'c'⟩]
      (Or.inl rfl)).2⟩

/-- C10: `_best_hand_value` is total on short inputs: with fewer than
5 cards there is no 5-card subset, the fold never runs, and the
sentinel rank `(0,)` is returned rather than an error. -/
theorem best_hand_value_short (cards : List Card) (h : cards.length < 5) :
    best_hand_value cards = [0] := by
  have hnil : List.sublistsLen 5 cards = [] := List.sublistsLen_of_length_lt h
  simp [best_hand_value, hnil]

/-- Witness for C10: the empty card list. -/
theorem best_hand_value_short_witness :
    ([] : List Card).length < 5 ∧ best_hand_value [] = [0] :=
  ⟨by decide, best_hand_value_short [] (by decide)⟩

/-! Claim C9: rounding of the response fields. -/

lemma roundHalfEvenQ_close (x : ℚ) : |(roundHalfEvenQ x : ℚ) - x| ≤ 1 / 2 := by
  have h0 : ((⌊x⌋ : ℤ) : ℚ) ≤ x := Int.floor_le x
  have h1 : x < ((⌊x⌋ : ℤ) : ℚ) + 1 := Int.lt_floor_add_one x
  simp only [roundHalfEvenQ]
  split_ifs with ha hb hc <;> rw [abs_le] <;> push_cast <;>
    constructor <;> linarith

lemma roundQ_close (n : Nat) (x : ℚ) : |roundQ n x - x| ≤ 1 / (2 * 10 ^ n) := by
  have hpow : (0 : ℚ) < 10 ^ n := by positivity
  have h := roundHalfEvenQ_close (x * 10 ^ n)
  have heq : roundQ n x - x =
      ((roundHalfEvenQ (x * 10 ^ n) : ℚ) - x * 10 ^ n) / 10 ^ n := by
    rw [roundQ]
    field_simp
    ring
  rw [heq, abs_div, abs_of_pos hpow,
    div_le_div_iff₀ hpow (by positivity : (0 : ℚ) < 2 * 10 ^ n)]
  have hmul := mul_le_mul_of_nonneg_right h
    (show (0 : ℚ) ≤ 2 * 10 ^ n by positivity)
  linarith

/-- C9: the returned response carries `win_prob`, `tie_prob` and
`loss_prob` rounded (half-to-even, as Python's `round`) to 4 decimal
places, `ev_bb` and `confidence` rounded to 3 decimal places, and the
completed-trial count unrounded; consequently the three returned
probabilities sum to 1 only up to the rounding, within
`3 * 0.00005 = 3/20000`. -/
theorem response_rounding (t : Tally) (players : Nat)
    (duration_ms max_time_ms : ℚ)
    (hinv : (t.wins : ℚ) + t.ties ≤ (t.completed : ℚ))
    (hc : 1 ≤ t.completed) :
    (solverResponse t players duration_ms max_time_ms).win_prob =
        roundQ 4 (winP t) ∧
    (solverResponse t players duration_ms max_time_ms).tie_prob =
        roundQ 4 (tieP t) ∧
    (solverResponse t players duration_ms max_time_ms).loss_prob =
        roundQ 4 (lossP t) ∧
    (solverResponse t players duration_ms max_time_ms).ev_bb =
        roundQ 3 (estimate_ev (winP t) (lossP t) players) ∧
    (solverResponse t players duration_ms max_time_ms).confidence =
        roundR 3 (confidence (winP t) t.completed duration_ms max_time_ms) ∧
    (solverResponse t players duration_ms max_time_ms).iterations =
        t.completed ∧
    |(solverResponse t players duration_ms max_time_ms).win_prob +
        (solverResponse t players duration_ms max_time_ms).tie_prob +
        (solverResponse t players duration_ms max_time_ms).loss_prob - 1| ≤
      3 / 20000 := by
  refine ⟨rfl, rfl, rfl, rfl, rfl, rfl, ?_⟩
  have hsum := probs_sum_one t hinv hc
  have h1 := roundQ_close 4 (winP t)
  have h2 := roundQ_close 4 (tieP t)
  have h3 := roundQ_close 4 (lossP t)
  have hbound : (1 : ℚ) / (2 * 10 ^ 4) = 1 / 20000 := by norm_num
  rw [hbound] at h1 h2 h3
  show |roundQ 4 (winP t) + roundQ 4 (tieP t) + roundQ 4 (lossP t) - 1| ≤
    3 / 20000
  rw [abs_le] at h1 h2 h3 ⊢
  constructor <;> linarith

/-- Witness for C9 on the concrete tally `(0, 1/2, 1)`. -/
theorem response_rounding_witness :
    1 ≤ (⟨0, 1 / 2, 1⟩ : Tally).completed ∧
    |(solverResponse ⟨0, 1 / 2, 1⟩ 2 0 100).win_prob +
        (solverResponse ⟨0, 1 / 2, 1⟩ 2 0 100).tie_prob +
        (solverResponse ⟨0, 1 / 2, 1⟩ 2 0 100).loss_prob - 1| ≤ 3 / 20000 :=
  ⟨by decide,
    (response_rounding ⟨0, 1 / 2, 1⟩ 2 0 100 (by norm_num)
      (by decide)).2.2.2.2.2.2⟩

/-! Claim C4: the wheel straight. -/

lemma sortAsc_eq {l l' : List Nat} (hperm : l.Perm l')
    (hsort : l'.Sorted (· ≤ ·)) : sortAsc l = l' :=
  List.eq_of_perm_of_sorted ((List.perm_insertionSort _ l).trans hperm)
    (List.sorted_insertionSort _ l) hsort

lemma all_eq_of_dedup_length_one {α : Type} [DecidableEq α] (l : List α)
    (h : l.dedup.length = 1) : ∀ x ∈ l, ∀ y ∈ l, x = y := by
  obtain ⟨a, ha⟩ := List.length_eq_one.mp h
  intro x hx y hy
  have hx' : x ∈ l.dedup := List.mem_dedup.mpr hx
  have hy' : y ∈ l.dedup := List.mem_dedup.mpr hy
  rw [ha, List.mem_singleton] at hx' hy'
  rw [hx', hy']

lemma countsSorted_mem_snd (ranks : List Nat) (hnd : ranks.Nodup) :
    ∀ p ∈ countsSorted ranks, p.2 = 1 := by
  intro p hp
  have hp' : p ∈ ranks.dedup.map fun r => (r, ranks.count r) :=
    (List.perm_insertionSort countKey _).mem_iff.mp hp
  obtain ⟨r, hr, rfl⟩ := List.mem_map.mp hp'
  exact List.count_eq_one_of_mem hnd (List.mem_dedup.mp hr)

lemma countsSorted_ne_nil (ranks : List Nat) (h : ranks ≠ []) :
    countsSorted ranks ≠ [] := by
  intro hnil
  have hlen := (List.perm_insertionSort countKey
    (ranks.dedup.map fun r => (r, ranks.count r))).length_eq
  rw [countsSorted] at hnil
  rw [hnil, List.length_map] at hlen
  exact h ((List.dedup_eq_nil ranks).mp (List.length_eq_zero.mp hlen.symm))

lemma headD_mem {α : Type} (l : List α) (d : α) (h : l ≠ []) : l.headD d ∈ l := by
  cases l with
  | nil => exact absurd rfl h
  | cons a l => exact List.mem_cons_self a l

lemma straight_high_wheel (ranks : List Nat) (hperm : ranks.Perm [14, 2, 3, 4, 5]) :
    straight_high ranks = some 5 := by
  have hnd : ranks.Nodup := hperm.nodup_iff.mpr (by decide)
  have hded : ranks.dedup = ranks := List.dedup_eq_self.mpr hnd
  have hu0 : sortAsc ranks.dedup = [2, 3, 4, 5, 14] := by
    apply sortAsc_eq
    · rw [hded]
      exact hperm.trans (by decide)
    · decide
  simp only [straight_high]
  rw [hu0]
  decide

/-- C4: any 5-card hand whose ranks are exactly A,2,3,4,5 and whose
suits are not all identical evaluates to the straight category with
tiebreak sequence `[5]` — the wheel's straight high is 5, not 14. -/
theorem wheel_straight_value (cards : List Card)
    (hranks : (cards.map Card.rank).Perm ['A', '2', '3', '4', '5'])
    (hsuits : ¬ ∀ x ∈ cards, ∀ y ∈ cards, x.suit = y.suit) :
    hand_value cards = [4, 5] := by
  have hvals : (cards.map fun card => RANK_TO_VALUE card.rank).Perm [14, 2, 3, 4, 5] := by
    have h1 := hranks.map RANK_TO_VALUE
    rw [List.map_map] at h1
    have h2 : ['A', '2', '3', '4', '5'].map RANK_TO_VALUE = [14, 2, 3, 4, 5] := by
      decide
    rw [h2] at h1
    exact h1
  have hnd : (cards.map fun card => RANK_TO_VALUE card.rank).Nodup :=
    hvals.nodup_iff.mpr (by decide)
  have hsh := straight_high_wheel _ hvals
  have hflush : ¬ (cards.map Card.suit).dedup.length = 1 := by
    intro h1
    exact hsuits fun x hx y hy =>
      all_eq_of_dedup_length_one _ h1 _ (List.mem_map_of_mem _ hx) _
        (List.mem_map_of_mem _ hy)
  have hne : (cards.map fun card => RANK_TO_VALUE card.rank) ≠ [] := by
    intro h0
    have := hvals.length_eq
    rw [h0] at this
    simp at this
  have htop : ((countsSorted
      (cards.map fun card => RANK_TO_VALUE card.rank)).headD (0, 0)).2 = 1 :=
    countsSorted_mem_snd _ hnd _ (headD_mem _ _ (countsSorted_ne_nil _ hne))
  simp only [hand_value]
  rw [hsh, htop]
  rw [if_neg fun hcon => hflush hcon.1]
  rw [if_neg (by decide : ¬(1 = 4))]
  rw [if_neg fun hcon => absurd hcon.1 (by decide)]
  rw [if_neg hflush]
  rfl

/-- Witness for C4 on a concrete mixed-suit wheel. -/
theorem wheel_straight_value_witness :
    (([⟨'A', 'c'⟩, ⟨'2', 'd'⟩, ⟨'3', 'h'⟩, ⟨'4', 's'⟩, ⟨'5', 'c'⟩] :
        List Card).map Card.rank).Perm ['A', '2', '3', '4', '5'] ∧
    hand_value [⟨'A', 'c'⟩, ⟨'2', 'd'⟩, ⟨'3', 'h'⟩, ⟨'4', 's'⟩, ⟨'5', 'c'⟩] =
      [4, 5] :=
  ⟨by decide,
    wheel_straight_value
      [⟨'A', 'c'⟩, ⟨'2', 'd'⟩, ⟨'3', 'h'⟩, ⟨'4', 's'⟩, ⟨'5', 'c'⟩]
      (by decide) (by decide)⟩

/-! Claim C5: duplicate hero cards are rejected before simulation. -/

/-- C5: whenever the two hero cards coincide after case normalization
(same rank symbol and same suit symbol), `evaluate` returns the
duplicate-cards validation error — for every player count, every time
budget, and every randomness/time oracle — so no simulation (and hence
no trial) ever runs. -/
theorem duplicate_hero_rejected (r1 r2 s1 s2 : Char)
    (players max_time_ms : Nat) (rng : Nat → List Card)
    (timeUp : Nat → Bool) (duration_ms : ℚ)
    (hvalid : (⟨r1.toUpper, s1.toLower⟩ : Card) ∈ ALL_CARDS)
    (heq_r : r1.toUpper = r2.toUpper) (heq_s : s1.toLower = s2.toLower) :
    evaluate [r1, r2] [s1, s2] players max_time_ms rng timeUp duration_ms =
      Except.error "duplicate cards are not allowed" := by
  have hcards : buildCards ([r1, r2].zip [s1, s2]) =
      Except.ok [⟨r1.toUpper, s1.toLower⟩, ⟨r1.toUpper, s1.toLower⟩] := by
    show buildCards [(r1, s1), (r2, s2)] = _
    simp only [buildCards]
    rw [← heq_r, ← heq_s]
    rw [if_pos hvalid, if_pos hvalid]
    rfl
  have hbuild : build_hero_hand [r1, r2] [s1, s2] =
      Except.error "duplicate cards are not allowed" := by
    simp only [build_hero_hand, hcards, if_true]
  simp only [evaluate, hbuild]

/-- Witness for C5: the hero hand `aS, As` normalizes to two copies of
the ace of spades and is rejected. -/
theorem duplicate_hero_rejected_witness :
    (⟨Char.toUpper 'a', Char.toLower 'S'⟩ : Card) ∈ ALL_CARDS ∧
    evaluate ['a', 'A'] ['S', 's'] 2 100 (fun _ => []) (fun _ => false) 0 =
      Except.error "duplicate cards are not allowed" :=
  ⟨by decide,
    duplicate_hero_rejected 'a' 'A' 'S' 's' 2 100 (fun _ => [])
      (fun _ => false) 0 (by decide) (by decide) (by decide)⟩

end Preflop
